import Mathlib

/-
  Verification of the Melo core against its natural-language specification.

  The definitions below are a shallow embedding of the C sources:
  * melo_event.c          (event dispatcher)
  * melo_playlist_simple.c (simple playlist engine)
  * melo_player.h         (player state enumeration)

  Machine pointers are modelled by stable natural-number identities, GList
  by Lean lists (head = first node), GHashTable by association lists, and
  nullable pointers by Option. Locking and calls into the attached player
  are recorded as explicit traces of events so that the lock discipline can
  be stated and checked.
-/

namespace Melo

/-! ## Player states (from melo_player.h) -/

/-- MeloPlayerState, translated from the enumeration in melo_player.h. -/
inductive MeloPlayerState where
  | NONE
  | LOADING
  | BUFFERING
  | PLAYING
  | PAUSED_LOADING
  | PAUSED_BUFFERING
  | PAUSED
  | STOPPED
  | ERROR
deriving DecidableEq

/-! ## Tags

Modelled from the spec: melo_tags.h / melo_tags.c are absent from the
sources. Per the spec glossary, tags are descriptive media metadata with
optional embedded cover art; melo_tags_get_cover returns the embedded
artwork bytes and its mime type, melo_tags_has_cover reports whether cover
data is available, and melo_tags_set_cover_url installs a cover URL on the
tags. Only these aspects are needed by the claims. -/

/-- Modelled from the spec: descriptive media metadata (melo_tags.h is
missing from the sources); only the cover-related fields used by the
playlist engine are represented. -/
structure MeloTags where
  cover : Option String := none
  cover_type : Option String := none
  cover_url : Option String := none
deriving DecidableEq

/-- Modelled from the spec: melo_tags_has_cover reports whether the tags
carry embedded cover data; a NULL tags pointer has no cover. -/
def melo_tags_has_cover (tags : Option MeloTags) : Bool :=
  match tags with
  | none => false
  | some t => t.cover.isSome

/-- Modelled from the spec: melo_tags_get_cover returns the embedded
artwork bytes and writes the mime type through the out parameter. -/
def melo_tags_get_cover (t : MeloTags) : Option String × Option String :=
  (t.cover, t.cover_type)

/-- Modelled from the spec: melo_tags_set_cover_url installs a cover URL
derived from the owning playlist and the item name on the tags. -/
def melo_tags_set_cover_url (t : MeloTags) (name : String) : MeloTags :=
  { t with cover_url := some name }

/-! ## Playlist items and nodes -/

/-- MeloPlaylistItem. Modelled from the spec for the fields (melo_playlist.h
is missing from the sources): unique name, display full_name, locator path,
optional tags, and the two capability flags, exactly the fields
melo_playlist_simple.c reads and writes. -/
structure MeloPlaylistItem where
  name : String
  full_name : Option String
  path : Option String
  tags : Option MeloTags
  can_play : Bool
  can_remove : Bool
deriving DecidableEq

/-- A GList node of the playlist sequence: a stable identity standing for
the node address, carrying its MeloPlaylistItem data. The hash table and
the current pointer of melo_playlist_simple.c store GList node pointers;
here they store the node, and pointer comparison is identity comparison. -/
structure PlaylistNode where
  id : Nat
  item : MeloPlaylistItem
deriving DecidableEq

/-! ## Hash table (GHashTable with string keys) as an association list -/

/-- g_hash_table_lookup on a string-keyed table. -/
def ht_lookup (tbl : List (String × PlaylistNode)) (k : String) :
    Option PlaylistNode :=
  (tbl.find? (fun p => p.1 == k)).map (·.2)

/-- g_hash_table_insert: replaces any entry with an equal key. -/
def ht_insert (tbl : List (String × PlaylistNode)) (k : String)
    (v : PlaylistNode) : List (String × PlaylistNode) :=
  (k, v) :: tbl.filter (fun p => !(p.1 == k))

/-- g_hash_table_remove on a string-keyed table. -/
def ht_remove (tbl : List (String × PlaylistNode)) (k : String) :
    List (String × PlaylistNode) :=
  tbl.filter (fun p => !(p.1 == k))

/-! ## Playlist state (struct _MeloPlaylistSimplePrivate plus the base
class player pointer) -/

/-- The private state of a MeloPlaylistSimple: the GList sequence (head
first, items are prepended), the name hash table, the current node pointer,
and the override_cover_url flag. next_id is the allocator of fresh node
identities; player_attached records whether the base class player pointer
is non-NULL. -/
structure MeloPlaylistSimple where
  playlist : List PlaylistNode
  names : List (String × PlaylistNode)
  current : Option PlaylistNode
  next_id : Nat
  override_cover_url : Bool
  player_attached : Bool
deriving DecidableEq

/-- melo_playlist_simple_init: empty sequence, empty table, no current. -/
def melo_playlist_simple_init (override_url attached : Bool) :
    MeloPlaylistSimple :=
  { playlist := []
    names := []
    current := none
    next_id := 0
    override_cover_url := override_url
    player_attached := attached }

/-! ## Traces of lock and player interactions -/

/-- A call into the attached player (melo_player.h entry points used by
melo_playlist_simple.c). -/
inductive PlayerCmd where
  | play (path : Option String) (name : String) (tags : Option MeloTags)
  | set_state (st : MeloPlayerState)
deriving DecidableEq

/-- An observable step of a playlist operation: taking or releasing the
playlist mutex, or calling into the player. -/
inductive Ev where
  | lock
  | unlock
  | player (cmd : PlayerCmd)
deriving DecidableEq

/-- True when some player call in the trace happens while the lock depth
is positive, i.e. while the playlist mutex is held. -/
def playerCallUnderLock : List Ev → Nat → Bool
  | [], _ => false
  | Ev.lock :: tr, d => playerCallUnderLock tr (d + 1)
  | Ev.unlock :: tr, d => playerCallUnderLock tr (d - 1)
  | Ev.player _ :: tr, d => (!(d == 0)) || playerCallUnderLock tr d

/-! ## melo_playlist_simple_get_list -/

/-- MeloPlaylistList: the snapshot returned by get_list. -/
structure MeloPlaylistList where
  items : List MeloPlaylistItem
  current : Option String
deriving DecidableEq

/-- Tag field selector (bit mask); melo_playlist_simple_get_list ignores
it, as the source does. -/
abbrev MeloTagsFields := Nat

/-- melo_playlist_simple_get_list: copies the sequence (deep copy with a
reference taken on each item) and the name of the current item. -/
def melo_playlist_simple_get_list (s : MeloPlaylistSimple)
    (tags_fields : MeloTagsFields) : MeloPlaylistList :=
  { items := s.playlist.map (·.item)
    current := s.current.map (·.item.name) }

/-! ## melo_playlist_simple_add -/

/-- MELO_PLAYLIST_SIMPLE_NAME_EXT_SIZE from melo_playlist_simple.c. -/
def MELO_PLAYLIST_SIMPLE_NAME_EXT_SIZE : Nat := 10

/-- G_MAXINT: the largest value of a signed 32-bit gint. -/
def G_MAXINT : Nat := 2 ^ 31 - 1

/-- The candidate name checked at loop counter i: the bare base name at
i = 1, and the base with the suffix written by
g_snprintf (final_name + len, 10, "_%d", i - 1) afterwards (at most
9 characters of the suffix are kept). -/
def addCandidate (base : String) (i : Nat) : String :=
  if i = 1 then base
  else base ++ (("_" ++ toString (i - 1)).take
                  (MELO_PLAYLIST_SIMPLE_NAME_EXT_SIZE - 1))

/-- The collision loop of melo_playlist_simple_add:
for (i = 1; i > 0 && g_hash_table_lookup (names, final_name); i++)
  g_snprintf (final_name + len, 10, "_%d", i).
The counter i is a signed 32-bit gint; it can make at most G_MAXINT checks
before wrapping negative, which the caller turns into failure. fuel counts
the remaining checks; none models the wrapped (i < 0) exit. -/
def addLoop (names : List (String × PlaylistNode)) (base : String) :
    Nat → Nat → Option String
  | _, 0 => none
  | i, fuel + 1 =>
    if (ht_lookup names (addCandidate base i)).isNone then
      some (addCandidate base i)
    else
      addLoop names base (i + 1) fuel

/-- The item built by melo_playlist_simple_add once the final name is
known: melo_playlist_item_new (NULL, full_name, path, tags) followed by
item->name = final_name and the two TRUE flags; the in-place
melo_tags_set_cover_url mutation of the shared tags (performed when
override_cover_url is set and the tags have a cover) is modelled by
storing the updated tags value. -/
def addItem (s : MeloPlaylistSimple) (full_name path : Option String)
    (tags : Option MeloTags) (final_name : String) : MeloPlaylistItem :=
  { name := final_name
    full_name := full_name
    path := path
    tags :=
      if s.override_cover_url ∧ melo_tags_has_cover tags then
        tags.map (fun t => melo_tags_set_cover_url t final_name)
      else tags
    can_play := true
    can_remove := true }

/-- The state mutation of a successful melo_playlist_simple_add: the new
node is prepended to the sequence (g_list_prepend), indexed in the table
under its final name, and made current when is_current is set. -/
def addApply (s : MeloPlaylistSimple) (full_name path : Option String)
    (tags : Option MeloTags) (is_current : Bool) (final_name : String) :
    MeloPlaylistSimple :=
  let node : PlaylistNode :=
    { id := s.next_id, item := addItem s full_name path tags final_name }
  { s with
    playlist := node :: s.playlist
    names := ht_insert s.names final_name node
    current := if is_current then some node else s.current
    next_id := s.next_id + 1 }

/-- melo_playlist_simple_add after the base name has been resolved: runs
the collision loop; a wrapped counter (i < 0) fails the call with no state
change, otherwise the new item is installed. -/
def addWithBase (s : MeloPlaylistSimple) (base : String)
    (full_name path : Option String) (tags : Option MeloTags)
    (is_current : Bool) : Bool × MeloPlaylistSimple :=
  match addLoop s.names base 1 G_MAXINT with
  | none => (false, s)
  | some final_name =>
    (true, addApply s full_name path tags is_current final_name)

/-- melo_playlist_simple_add. The result is none when name, full_name and
path are all NULL (the C code would dereference NULL in strlen); otherwise
some (ok, new state), where the base name is name, falling back to
full_name then path. The out pointers of the C interface carry no data
here. -/
def melo_playlist_simple_add (s : MeloPlaylistSimple)
    (name full_name path : Option String) (tags : Option MeloTags)
    (is_current : Bool) : Option (Bool × MeloPlaylistSimple) :=
  match name <|> full_name <|> path with
  | none => none
  | some base => some (addWithBase s base full_name path tags is_current)

/-! ## melo_playlist_simple_get_prev / get_next -/

/-- The position of the current node in the sequence (the node pointed to
by priv->current, located by its identity). -/
def currentIdx (s : MeloPlaylistSimple) (c : PlaylistNode) : Option Nat :=
  s.playlist.findIdx? (fun n => n.id == c.id)

/-- The result of get_prev / get_next: the returned path and the values
written through the name and tags out pointers (none = not written), plus
the state after the call. -/
structure AdvanceOut where
  path : Option String
  name : Option String
  tags : Option MeloTags
  state : MeloPlaylistSimple
deriving DecidableEq

/-- melo_playlist_simple_get_prev: reads priv->current->next (one step
toward the tail); writes the out pointers and, only when set is true,
moves priv->current to that node. -/
def melo_playlist_simple_get_prev (s : MeloPlaylistSimple) (set : Bool) :
    AdvanceOut :=
  match s.current with
  | none => ⟨none, none, none, s⟩
  | some c =>
    match currentIdx s c with
    | none => ⟨none, none, none, s⟩
    | some i =>
      match s.playlist[i + 1]? with
      | none => ⟨none, none, none, s⟩
      | some nxt =>
        ⟨nxt.item.path, some nxt.item.name, nxt.item.tags,
         if set then { s with current := some nxt } else s⟩

/-- melo_playlist_simple_get_next: reads priv->current->prev (one step
toward the head); writes the out pointers and moves priv->current to that
node unconditionally (the source assigns priv->current outside any test of
the set parameter). -/
def melo_playlist_simple_get_next (s : MeloPlaylistSimple) (set : Bool) :
    AdvanceOut :=
  match s.current with
  | none => ⟨none, none, none, s⟩
  | some c =>
    match currentIdx s c with
    | none => ⟨none, none, none, s⟩
    | some i =>
      if h : i = 0 then ⟨none, none, none, s⟩
      else
        match s.playlist[i - 1]? with
        | none => ⟨none, none, none, s⟩
        | some prv =>
          ⟨prv.item.path, some prv.item.name, prv.item.tags,
           { s with current := some prv }⟩

/-! ## melo_playlist_simple_play -/

/-- melo_playlist_simple_play: under the lock, looks the name up and moves
priv->current to the found node; after releasing the lock, if a player is
attached, issues the play command with the item path, name and tags. -/
def melo_playlist_simple_play (s : MeloPlaylistSimple) (name : String) :
    Bool × MeloPlaylistSimple × List Ev :=
  match ht_lookup s.names name with
  | none => (false, s, [Ev.lock, Ev.unlock])
  | some node =>
    (true,
     { s with current := some node },
     [Ev.lock, Ev.unlock] ++
       (if s.player_attached then
          [Ev.player (PlayerCmd.play node.item.path node.item.name
                        node.item.tags)]
        else []))

/-! ## melo_playlist_simple_remove -/

/-- g_list_remove: removes the first node whose data pointer equals the
given item; item pointers coincide with node identities here, since every
node carries the item allocated for it. -/
def eraseNode (l : List PlaylistNode) (nid : Nat) : List PlaylistNode :=
  match l with
  | [] => []
  | n :: t => if n.id = nid then t else n :: eraseNode t nid

/-- melo_playlist_simple_remove: under the lock, looks the name up; on a
miss, fails with no state change. On a hit, if the found node is
priv->current, calls melo_player_set_state (player, NONE) while still
holding the lock and clears current; then removes the node from the
sequence and the table. -/
def melo_playlist_simple_remove (s : MeloPlaylistSimple) (name : String) :
    Bool × MeloPlaylistSimple × List Ev :=
  match ht_lookup s.names name with
  | none => (false, s, [Ev.lock, Ev.unlock])
  | some node =>
    let isCur := match s.current with
      | some c => c.id == node.id
      | none => false
    (true,
     { s with
       current := if isCur then none else s.current
       playlist := eraseNode s.playlist node.id
       names := ht_remove s.names name },
     [Ev.lock] ++
       (if isCur then [Ev.player (PlayerCmd.set_state MeloPlayerState.NONE)]
        else []) ++
       [Ev.unlock])

/-! ## melo_playlist_simple_get_cover -/

/-- melo_playlist_simple_get_cover. The two out pointers are modelled as
Option (Option String): none means the call did not write the variable,
some v means it wrote the (possibly NULL) value v. Returns false only on a
failed name lookup; with tags present it writes the cover data and mime
type, with NULL tags it returns true leaving both variables untouched. -/
def melo_playlist_simple_get_cover (s : MeloPlaylistSimple) (path : String) :
    Bool × Option (Option String) × Option (Option String) :=
  match ht_lookup s.names path with
  | none => (false, none, none)
  | some node =>
    match node.item.tags with
    | none => (true, none, none)
    | some t =>
      let r := melo_tags_get_cover t
      (true, some r.1, some r.2)

/-! ## Event dispatcher (melo_event.c) -/

/-- MeloEventType from melo_event.h, as used by melo_event.c. -/
inductive MeloEventType where
  | GENERAL
  | MODULE
  | BROWSER
  | PLAYER
  | PLAYLIST
deriving DecidableEq

/-- struct _MeloEventClient: a callback pointer and a user data pointer,
both modelled as opaque numeric identities. -/
structure MeloEventClient where
  callback : Nat
  user_data : Nat
deriving DecidableEq

/-- melo_event_register: creates the client context and prepends it to the
global client list (g_list_prepend); returns the new client and the new
list. -/
def melo_event_register (clients : List MeloEventClient)
    (callback user_data : Nat) : MeloEventClient × List MeloEventClient :=
  let client : MeloEventClient := { callback := callback, user_data := user_data }
  (client, client :: clients)

/-- One observable step of melo_event_new: a callback call with its
arguments, or the free_data_func call on the payload. -/
inductive EventAction where
  | call (client : MeloEventClient) (type : MeloEventType) (event : Nat)
      (id : String) (data : Nat) (user_data : Nat)
  | free_data
deriving DecidableEq

/-- melo_event_new: under the lock, walks the client list from its head
and calls every callback with (client, type, event, id, data, user_data);
after unlocking, calls free_data_func on the payload when one was given.
The value is the trace of calls in program order. -/
def melo_event_new (clients : List MeloEventClient) (type : MeloEventType)
    (event : Nat) (id : String) (data : Nat) (has_free_func : Bool) :
    List EventAction :=
  (clients.map (fun c =>
     EventAction.call c type event id data c.user_data)) ++
  (if has_free_func then [EventAction.free_data] else [])

/-- The global client list obtained by a sequence of registrations applied
to the initially empty list, in the order given. -/
def registerAll (regs : List (Nat × Nat)) : List MeloEventClient :=
  regs.foldl (fun acc r => (melo_event_register acc r.1 r.2).2) []

/-! ## The playlist invariant (claim C7) -/

/-- The consistency invariant of a simple playlist: item names are unique
in the sequence, node identities are unique and below the allocator, every
table entry holds a node of the sequence keyed by that node item name,
every sequence node is found by looking its name up, and the current
pointer, when non-NULL, holds a node of the sequence. -/
structure Inv (s : MeloPlaylistSimple) : Prop where
  names_nodup : (s.playlist.map (fun n => n.item.name)).Nodup
  ids_nodup : (s.playlist.map PlaylistNode.id).Nodup
  ids_fresh : ∀ n ∈ s.playlist, n.id < s.next_id
  table_sound : ∀ p ∈ s.names, p.2 ∈ s.playlist ∧ p.2.item.name = p.1
  table_complete : ∀ n ∈ s.playlist, (ht_lookup s.names n.item.name).isSome
  current_in : ∀ c, s.current = some c → c ∈ s.playlist

/-! ## Helper lemmas on the hash table -/

theorem ht_lookup_eq_some {tbl : List (String × PlaylistNode)} {k : String}
    {v : PlaylistNode} (h : ht_lookup tbl k = some v) : (k, v) ∈ tbl := by
  unfold ht_lookup at h
  rcases Option.map_eq_some'.mp h with ⟨x, hx, hv⟩
  have hmem := List.mem_of_find?_eq_some hx
  have hk : x.1 = k := by simpa using List.find?_some hx
  cases x
  simp_all

theorem ht_lookup_insert_self (tbl : List (String × PlaylistNode))
    (k : String) (v : PlaylistNode) :
    ht_lookup (ht_insert tbl k v) k = some v := by
  simp [ht_lookup, ht_insert, List.find?]

theorem find?_filter_of_imp {α : Type _} (l : List α) {p q : α → Bool}
    (hpq : ∀ a, q a = true → p a = true) :
    List.find? q (List.filter p l) = List.find? q l := by
  induction l with
  | nil => rfl
  | cons a t ih =>
    by_cases hp : p a = true
    · rw [List.filter_cons, if_pos hp]
      by_cases hq : q a = true
      · rw [List.find?_cons_of_pos _ hq, List.find?_cons_of_pos _ hq]
      · rw [List.find?_cons_of_neg _ hq, List.find?_cons_of_neg _ hq]
        exact ih
    · rw [List.filter_cons, if_neg hp]
      have hq : ¬ q a = true := fun hqa => hp (hpq a hqa)
      rw [List.find?_cons_of_neg _ hq]
      exact ih

theorem ht_lookup_remove_ne {k q : String} (h : q ≠ k)
    (tbl : List (String × PlaylistNode)) :
    ht_lookup (ht_remove tbl k) q = ht_lookup tbl q := by
  unfold ht_lookup ht_remove
  rw [find?_filter_of_imp]
  intro a ha
  simp only [beq_iff_eq] at ha
  simp only [Bool.not_eq_true', beq_eq_false_iff_ne, ne_eq, ha]
  exact h

theorem ht_lookup_remove_self (tbl : List (String × PlaylistNode))
    (k : String) : ht_lookup (ht_remove tbl k) k = none := by
  have hall : ∀ x ∈ ht_remove tbl k, ¬ ((fun p : String × PlaylistNode => p.1 == k) x = true) := by
    intro x hx
    have := List.of_mem_filter hx
    simpa using this
  simp [ht_lookup, List.find?_eq_none.mpr hall]

theorem ht_lookup_insert_ne {k q : String} (h : q ≠ k)
    (tbl : List (String × PlaylistNode)) (v : PlaylistNode) :
    ht_lookup (ht_insert tbl k v) q = ht_lookup tbl q := by
  have h2 : (k == q) = false := by
    simp only [beq_eq_false_iff_ne, ne_eq]
    exact fun hq => h hq.symm
  calc ht_lookup (ht_insert tbl k v) q
      = ht_lookup (ht_remove tbl k) q := by
        simp [ht_insert, ht_remove, ht_lookup, List.find?, h2]
    _ = ht_lookup tbl q := ht_lookup_remove_ne h tbl

/-! ## Helper lemmas on eraseNode -/

theorem eraseNode_sublist (l : List PlaylistNode) (nid : Nat) :
    List.Sublist (eraseNode l nid) l := by
  induction l with
  | nil => simp [eraseNode]
  | cons n t ih =>
    by_cases h : n.id = nid
    · simpa [eraseNode, h] using List.sublist_cons_self n t
    · simpa [eraseNode, h] using ih.cons₂ n

theorem mem_eraseNode_of_ne {l : List PlaylistNode} {m : PlaylistNode}
    {nid : Nat} (hm : m ∈ l) (hne : m.id ≠ nid) : m ∈ eraseNode l nid := by
  induction l with
  | nil => simp at hm
  | cons n t ih =>
    rcases List.mem_cons.mp hm with rfl | hmt
    · simp [eraseNode, hne]
    · by_cases h : n.id = nid
      · simpa [eraseNode, h] using hmt
      · simpa [eraseNode, h] using Or.inr (ih hmt)

theorem id_ne_of_mem_eraseNode {l : List PlaylistNode} {m : PlaylistNode}
    {nid : Nat} (hd : (l.map PlaylistNode.id).Nodup)
    (hm : m ∈ eraseNode l nid) : m.id ≠ nid := by
  induction l with
  | nil => simp [eraseNode] at hm
  | cons n t ih =>
    simp only [List.map_cons, List.nodup_cons] at hd
    by_cases h : n.id = nid
    · simp only [eraseNode, if_pos h] at hm
      intro hc
      exact hd.1 (h ▸ hc ▸ List.mem_map_of_mem PlaylistNode.id hm)
    · simp only [eraseNode, if_neg h] at hm
      rcases List.mem_cons.mp hm with rfl | hmt
      · exact h
      · exact ih hd.2 hmt

/-! ## Helper lemmas on the name-collision loop -/

theorem addLoop_fresh {names : List (String × PlaylistNode)} {base : String} :
    ∀ {fuel i fn : _}, addLoop names base i fuel = some fn →
      ht_lookup names fn = none := by
  intro fuel
  induction fuel with
  | zero => intro i fn h; simp [addLoop] at h
  | succ f ih =>
    intro i fn h
    by_cases hc : (ht_lookup names (addCandidate base i)).isNone
    · simp only [addLoop, if_pos hc, Option.some.injEq] at h
      exact h ▸ Option.isNone_iff_eq_none.mp hc
    · simp only [addLoop, if_neg hc] at h
      exact ih h

theorem addLoop_step_free {names : List (String × PlaylistNode)}
    {base : String} {i fuel : Nat}
    (hfree : (ht_lookup names (addCandidate base i)).isNone)
    (hfuel : 0 < fuel) :
    addLoop names base i fuel = some (addCandidate base i) := by
  cases fuel with
  | zero => exact absurd hfuel (by simp)
  | succ f => simp [addLoop, hfree]

theorem addLoop_step_busy {names : List (String × PlaylistNode)}
    {base : String} {i fuel : Nat}
    (hbusy : ¬ (ht_lookup names (addCandidate base i)).isNone)
    (hfuel : 0 < fuel) :
    addLoop names base i fuel = addLoop names base (i + 1) (fuel - 1) := by
  cases fuel with
  | zero => exact absurd hfuel (by simp)
  | succ f => simp [addLoop, hbusy]

/-! ## C1: event dispatcher fan-out order -/

theorem registerAll_eq (regs : List (Nat × Nat)) :
    registerAll regs =
      (regs.map (fun r => MeloEventClient.mk r.1 r.2)).reverse := by
  have key : ∀ (rs : List (Nat × Nat)) (acc : List MeloEventClient),
      rs.foldl (fun a r => (melo_event_register a r.1 r.2).2) acc =
        (rs.map (fun r => MeloEventClient.mk r.1 r.2)).reverse ++ acc := by
    intro rs
    induction rs with
    | nil => intro acc; simp
    | cons r t ih =>
      intro acc
      rw [List.foldl_cons]
      show List.foldl _ (MeloEventClient.mk r.1 r.2 :: acc) t = _
      rw [ih]
      simp
  simpa using key regs []

/-- C1 (corrected): publishing an event calls the callback of every
registered client exactly once, synchronously, in the REVERSE of
registration order (clients are prepended to the list and the list is
walked from its head, so the most recently registered client is called
first), and the payload destructor, when given, runs exactly once after
all the callbacks. -/
theorem melo_event_new_trace (regs : List (Nat × Nat))
    (type : MeloEventType) (event : Nat) (id : String) (data : Nat)
    (has_free_func : Bool) :
    melo_event_new (registerAll regs) type event id data has_free_func =
      (regs.map (fun r =>
        EventAction.call (MeloEventClient.mk r.1 r.2) type event id data
          r.2)).reverse ++
      (if has_free_func then [EventAction.free_data] else []) := by
  simp only [melo_event_new, registerAll_eq, List.map_reverse, List.map_map]
  rfl

/-- C1 (counterexample): with two clients registered in the order
(callback 1, user data 10) then (callback 2, user data 20), publishing
does NOT call the earliest-registered client first; the trace begins with
the most recently registered client. -/
theorem melo_event_new_not_registration_order :
    melo_event_new (registerAll [(1, 10), (2, 20)]) MeloEventType.PLAYER 8
        "player_id" 0 false ≠
      [EventAction.call (MeloEventClient.mk 1 10) MeloEventType.PLAYER 8
         "player_id" 0 10,
       EventAction.call (MeloEventClient.mk 2 20) MeloEventType.PLAYER 8
         "player_id" 0 20] ∧
    melo_event_new (registerAll [(1, 10), (2, 20)]) MeloEventType.PLAYER 8
        "player_id" 0 false =
      [EventAction.call (MeloEventClient.mk 2 20) MeloEventType.PLAYER 8
         "player_id" 0 20,
       EventAction.call (MeloEventClient.mk 1 10) MeloEventType.PLAYER 8
         "player_id" 0 10] := by
  constructor
  · decide
  · decide

/-! ## Sample concrete playlists -/

/-- A sample item named A with a path and no tags. -/
def itemA : MeloPlaylistItem :=
  { name := "A", full_name := none, path := some "path_a", tags := none,
    can_play := true, can_remove := true }

/-- A sample item named B with a path and no tags. -/
def itemB : MeloPlaylistItem :=
  { name := "B", full_name := none, path := some "path_b", tags := none,
    can_play := true, can_remove := true }

/-- The node of itemA. -/
def nodeA : PlaylistNode := { id := 0, item := itemA }

/-- The node of itemB. -/
def nodeB : PlaylistNode := { id := 1, item := itemB }

/-- A sample playlist holding A then B (B added last, so B is the head of
the sequence), with current = A and a player attached. -/
def sampleAB : MeloPlaylistSimple :=
  { playlist := [nodeB, nodeA]
    names := [("B", nodeB), ("A", nodeA)]
    current := some nodeA
    next_id := 2
    override_cover_url := false
    player_attached := true }

/-- sampleAB with current moved to the head node B. -/
def sampleABcurB : MeloPlaylistSimple := { sampleAB with current := some nodeB }

/-! ## C2: peek semantics of get_prev / get_next -/

/-- C2 (code bug in get_next): on the playlist [B, A] with current = A,
get_next with set = false returns the data of B but ALSO moves current to
B — the source assigns priv->current without testing the set parameter —
whereas get_prev with set = false is a pure peek: on current = B it
returns the data of A and leaves the state untouched. -/
theorem get_next_ignores_set :
    melo_playlist_simple_get_next sampleAB false =
      { path := some "path_b", name := some "B", tags := none,
        state := { sampleAB with current := some nodeB } } ∧
    { sampleAB with current := some nodeB } ≠ sampleAB ∧
    melo_playlist_simple_get_prev sampleABcurB false =
      { path := some "path_a", name := some "A", tags := none,
        state := sampleABcurB } := by
  refine ⟨by decide, by decide, by decide⟩

/-! ## C3: lock discipline toward the attached player -/

/-- Recognizes a player call in a trace. -/
def isPlayerCall : Ev → Bool
  | Ev.player _ => true
  | _ => false

/-- C3 (counterexample): removing the current item calls
melo_player_set_state while the playlist mutex is still held. -/
theorem remove_calls_player_under_lock :
    playerCallUnderLock (melo_playlist_simple_remove sampleAB "A").2.2 0 =
      true := by decide

/-- C3 (corrected): play never calls the player while the playlist mutex
is held (the play command is issued after release), but remove performs
every player call it makes — the set_state (NONE) on removal of the
current item — while still holding the mutex. -/
theorem playlist_lock_discipline (s : MeloPlaylistSimple) (name : String) :
    playerCallUnderLock (melo_playlist_simple_play s name).2.2 0 = false ∧
    playerCallUnderLock (melo_playlist_simple_remove s name).2.2 0 =
      (melo_playlist_simple_remove s name).2.2.any isPlayerCall := by
  constructor
  · unfold melo_playlist_simple_play
    cases h : ht_lookup s.names name with
    | none => simp [playerCallUnderLock]
    | some node =>
      cases hat : s.player_attached <;> simp [playerCallUnderLock]
  · unfold melo_playlist_simple_remove
    cases h : ht_lookup s.names name with
    | none => simp [playerCallUnderLock, isPlayerCall]
    | some node =>
      cases hc : s.current with
      | none => simp [playerCallUnderLock, isPlayerCall]
      | some c =>
        by_cases hid : (c.id == node.id) = true <;>
          simp [playerCallUnderLock, isPlayerCall, hid]

/-! ## C6: play by name -/

/-- C6: play with a name absent from the table fails and leaves the whole
state (current included) unchanged; play with a present name succeeds and
moves current to the found node. -/
theorem play_lookup (s : MeloPlaylistSimple) (name : String) :
    (ht_lookup s.names name = none →
      melo_playlist_simple_play s name = (false, s, [Ev.lock, Ev.unlock])) ∧
    (∀ node, ht_lookup s.names name = some node →
      (melo_playlist_simple_play s name).1 = true ∧
      (melo_playlist_simple_play s name).2.1 =
        { s with current := some node }) := by
  constructor
  · intro h
    simp [melo_playlist_simple_play, h]
  · intro node h
    simp [melo_playlist_simple_play, h]

/-- Witness for C6 at the sample playlist: the name missing is absent and
play fails without touching the state; the name B is present and play
moves current to its node. -/
theorem play_lookup_witness :
    melo_playlist_simple_play sampleAB "missing" =
      (false, sampleAB, [Ev.lock, Ev.unlock]) ∧
    (melo_playlist_simple_play sampleAB "B").1 = true ∧
    (melo_playlist_simple_play sampleAB "B").2.1 =
      { sampleAB with current := some nodeB } :=
  ⟨(play_lookup sampleAB "missing").1 (by decide),
   (play_lookup sampleAB "B").2 nodeB (by decide)⟩

/-! ## C10: get_cover -/

/-- C10: get_cover returns false exactly when the name misses the lookup
table; when the named item exists but carries no tags, the call still
returns true and writes neither the data nor the mime type variable. -/
theorem get_cover_lookup (s : MeloPlaylistSimple) (name : String) :
    ((melo_playlist_simple_get_cover s name).1 = false ↔
      ht_lookup s.names name = none) ∧
    (∀ node, ht_lookup s.names name = some node → node.item.tags = none →
      melo_playlist_simple_get_cover s name = (true, none, none)) := by
  constructor
  · unfold melo_playlist_simple_get_cover
    cases h : ht_lookup s.names name with
    | none => simp
    | some node => cases ht : node.item.tags <;> simp [ht]
  · intro node h ht
    simp [melo_playlist_simple_get_cover, h, ht]

/-- Witness for C10 at the sample playlist: item A exists and has no tags,
so get_cover succeeds leaving the outputs untouched. -/
theorem get_cover_lookup_witness :
    melo_playlist_simple_get_cover sampleAB "A" = (true, none, none) :=
  (get_cover_lookup sampleAB "A").2 nodeA (by decide) (by decide)

/-! ## C4: remove by name -/

/-- The sample playlist satisfies the playlist invariant. -/
theorem sampleAB_inv : Inv sampleAB := by
  refine ⟨by decide, by decide, by decide, by decide, by decide, ?_⟩
  intro c hc
  rw [show sampleAB.current = some nodeA from rfl] at hc
  injection hc with h
  subst h
  decide

/-- C4: remove of an absent name fails and leaves the sequence, the table
and current untouched; remove of a present name succeeds, deletes the item
from the table and from the sequence (keeping every other item), and, when
the removed item was current, clears current and issues the
set_state (NONE) player call; when it was not current, current is kept. -/
theorem remove_spec (s : MeloPlaylistSimple) (name : String) (hInv : Inv s) :
    (ht_lookup s.names name = none →
      melo_playlist_simple_remove s name = (false, s, [Ev.lock, Ev.unlock])) ∧
    (∀ node, ht_lookup s.names name = some node →
      (melo_playlist_simple_remove s name).1 = true ∧
      ht_lookup (melo_playlist_simple_remove s name).2.1.names name = none ∧
      (∀ m ∈ (melo_playlist_simple_remove s name).2.1.playlist,
        m.item.name ≠ name) ∧
      (∀ m ∈ s.playlist, m.item.name ≠ name →
        m ∈ (melo_playlist_simple_remove s name).2.1.playlist) ∧
      (s.current = some node →
        (melo_playlist_simple_remove s name).2.1.current = none ∧
        Ev.player (PlayerCmd.set_state MeloPlayerState.NONE) ∈
          (melo_playlist_simple_remove s name).2.2) ∧
      (∀ c, s.current = some c → c.id ≠ node.id →
        (melo_playlist_simple_remove s name).2.1.current = some c)) := by
  constructor
  · intro h
    simp [melo_playlist_simple_remove, h]
  · intro node h
    have hmem : (name, node) ∈ s.names := ht_lookup_eq_some h
    have hsound := hInv.table_sound _ hmem
    have hname : node.item.name = name := hsound.2
    have hnodemem : node ∈ s.playlist := hsound.1
    have hinj := List.inj_on_of_nodup_map hInv.names_nodup
    refine ⟨?_, ?_, ?_, ?_, ?_, ?_⟩
    · simp [melo_playlist_simple_remove, h]
    · simp only [melo_playlist_simple_remove, h]
      exact ht_lookup_remove_self s.names name
    · intro m hm hmn
      simp only [melo_playlist_simple_remove, h] at hm
      have hms : m ∈ s.playlist := (eraseNode_sublist _ _).subset hm
      have hid : m.id ≠ node.id :=
        id_ne_of_mem_eraseNode hInv.ids_nodup hm
      have : m = node := by
        apply hinj hms hnodemem
        rw [hmn, hname]
      exact hid (this ▸ rfl)
    · intro m hm hmn
      simp only [melo_playlist_simple_remove, h]
      apply mem_eraseNode_of_ne hm
      intro hid
      have : m = node :=
        List.inj_on_of_nodup_map hInv.ids_nodup hm hnodemem hid
      exact hmn (by rw [this, hname])
    · intro hcur
      simp [melo_playlist_simple_remove, h, hcur]
    · intro c hc hne
      simp [melo_playlist_simple_remove, h, hc, hne]

/-- Witness for C4 at the sample playlist: removing the absent name fails
without side effects, and removing the current item A clears current and
issues the set_state (NONE) call. -/
theorem remove_spec_witness :
    melo_playlist_simple_remove sampleAB "missing" =
      (false, sampleAB, [Ev.lock, Ev.unlock]) ∧
    (melo_playlist_simple_remove sampleAB "A").2.1.current = none ∧
    Ev.player (PlayerCmd.set_state MeloPlayerState.NONE) ∈
      (melo_playlist_simple_remove sampleAB "A").2.2 :=
  ⟨(remove_spec sampleAB "missing" sampleAB_inv).1 (by decide),
   ((remove_spec sampleAB "A" sampleAB_inv).2 nodeA (by decide)).2.2.2.2.1
     (by decide)⟩

/-! ## C5: name collision suffixing -/

/-- The item produced by adding base name Track repeatedly (no tags, no
full name, no path). -/
def trackItem (nm : String) : MeloPlaylistItem :=
  { name := nm, full_name := none, path := none, tags := none,
    can_play := true, can_remove := true }

/-- First Track node. -/
def nodeT0 : PlaylistNode := { id := 0, item := trackItem "Track" }

/-- Second Track node. -/
def nodeT1 : PlaylistNode := { id := 1, item := trackItem "Track_1" }

/-- Third Track node. -/
def nodeT2 : PlaylistNode := { id := 2, item := trackItem "Track_2" }

/-- The playlist after one add of Track on the empty playlist. -/
def sT1 : MeloPlaylistSimple :=
  { playlist := [nodeT0], names := [("Track", nodeT0)], current := none,
    next_id := 1, override_cover_url := false, player_attached := false }

/-- The playlist after a second add of Track. -/
def sT2 : MeloPlaylistSimple :=
  { playlist := [nodeT1, nodeT0],
    names := [("Track_1", nodeT1), ("Track", nodeT0)], current := none,
    next_id := 2, override_cover_url := false, player_attached := false }

/-- The playlist after a third add of Track. -/
def sT3 : MeloPlaylistSimple :=
  { playlist := [nodeT2, nodeT1, nodeT0],
    names := [("Track_2", nodeT2), ("Track_1", nodeT1), ("Track", nodeT0)],
    current := none, next_id := 3, override_cover_url := false,
    player_attached := false }

theorem add_track_1 :
    melo_playlist_simple_add (melo_playlist_simple_init false false)
      (some "Track") none none none false = some (true, sT1) := by
  have hloop : addLoop (melo_playlist_simple_init false false).names "Track"
      1 G_MAXINT = some "Track" := by
    have h := @addLoop_step_free
      (melo_playlist_simple_init false false).names
      "Track" 1 G_MAXINT (by decide) (by decide)
    rw [show addCandidate "Track" 1 = "Track" from by decide] at h
    exact h
  show some (addWithBase (melo_playlist_simple_init false false) "Track"
    none none none false) = _
  simp only [addWithBase, hloop]
  decide

theorem add_track_2 :
    melo_playlist_simple_add sT1 (some "Track") none none none false =
      some (true, sT2) := by
  have hloop : addLoop sT1.names "Track" 1 G_MAXINT = some "Track_1" := by
    calc addLoop sT1.names "Track" 1 G_MAXINT
        = addLoop sT1.names "Track" 2 (G_MAXINT - 1) :=
          addLoop_step_busy (by decide) (by decide)
      _ = some (addCandidate "Track" 2) :=
          addLoop_step_free (by decide) (by decide)
      _ = some "Track_1" := by decide
  show some (addWithBase sT1 "Track" none none none false) = _
  simp only [addWithBase, hloop]
  decide

theorem add_track_3 :
    melo_playlist_simple_add sT2 (some "Track") none none none false =
      some (true, sT3) := by
  have hloop : addLoop sT2.names "Track" 1 G_MAXINT = some "Track_2" := by
    calc addLoop sT2.names "Track" 1 G_MAXINT
        = addLoop sT2.names "Track" 2 (G_MAXINT - 1) :=
          addLoop_step_busy (by decide) (by decide)
      _ = addLoop sT2.names "Track" 3 (G_MAXINT - 1 - 1) :=
          addLoop_step_busy (by decide) (by decide)
      _ = some (addCandidate "Track" 3) :=
          addLoop_step_free (by decide) (by decide)
      _ = some "Track_2" := by decide
  show some (addWithBase sT2 "Track" none none none false) = _
  simp only [addWithBase, hloop]
  decide

/-- Inversion of melo_playlist_simple_add: a some result is either the
failure of an exhausted collision loop with the state unchanged, or a
success installing the new item for the final name found by the loop. -/
theorem add_inv {s s' : MeloPlaylistSimple} {r : Bool}
    {name full_name path : Option String} {tags : Option MeloTags}
    {is_current : Bool}
    (h : melo_playlist_simple_add s name full_name path tags is_current =
      some (r, s')) :
    (r = false ∧ s' = s ∧ ∃ base, (name <|> full_name <|> path) = some base ∧
      addLoop s.names base 1 G_MAXINT = none) ∨
    (r = true ∧ ∃ base fn, (name <|> full_name <|> path) = some base ∧
      addLoop s.names base 1 G_MAXINT = some fn ∧
      s' = addApply s full_name path tags is_current fn) := by
  cases hres : name <|> full_name <|> path with
  | none => simp [melo_playlist_simple_add, hres] at h
  | some base =>
    simp only [melo_playlist_simple_add, hres, Option.some.injEq] at h
    cases hloop : addLoop s.names base 1 G_MAXINT with
    | none =>
      simp only [addWithBase, hloop] at h
      injection h with h1 h2
      exact Or.inl ⟨h1.symm, h2.symm, base, rfl, hloop⟩
    | some fn =>
      simp only [addWithBase, hloop] at h
      injection h with h1 h2
      exact Or.inr ⟨h1.symm, base, fn, rfl, hloop, h2.symm⟩

/-- C5: from the empty playlist, three adds deriving the base name Track
produce the item names Track, Track_1 and Track_2 in order (the first
non-colliding suffix is appended), and an add reports failure exactly when
the collision loop exhausts its retry budget (the wrapped signed counter),
in which case the state is unchanged. -/
theorem add_collision_names :
    melo_playlist_simple_add (melo_playlist_simple_init false false)
      (some "Track") none none none false = some (true, sT1) ∧
    sT1.playlist.map (fun n => n.item.name) = ["Track"] ∧
    melo_playlist_simple_add sT1 (some "Track") none none none false =
      some (true, sT2) ∧
    sT2.playlist.map (fun n => n.item.name) = ["Track_1", "Track"] ∧
    melo_playlist_simple_add sT2 (some "Track") none none none false =
      some (true, sT3) ∧
    sT3.playlist.map (fun n => n.item.name) =
      ["Track_2", "Track_1", "Track"] ∧
    (∀ (s s' : MeloPlaylistSimple) (name full_name path : Option String)
       (tags : Option MeloTags) (is_current : Bool),
      melo_playlist_simple_add s name full_name path tags is_current =
          some (false, s') ↔
        ∃ base, (name <|> full_name <|> path) = some base ∧
          addLoop s.names base 1 G_MAXINT = none ∧ s' = s) := by
  refine ⟨add_track_1, by decide, add_track_2, by decide, add_track_3,
    by decide, ?_⟩
  intro s s' name full_name path tags is_current
  constructor
  · intro h
    rcases add_inv h with ⟨_, hs, base, hres, hloop⟩ | ⟨hr, _⟩
    · exact ⟨base, hres, hloop, hs⟩
    · exact absurd hr.symm (by simp)
  · rintro ⟨base, hres, hloop, rfl⟩
    simp [melo_playlist_simple_add, hres, addWithBase, hloop]

/-! ## C8: get_list snapshot independence -/

/-- C8: the list built by get_list has exactly the items of the sequence
at call time; a later successful add leaves that snapshot as it was — the
post-add state carries one more item, consed in front of the unchanged
old contents. -/
theorem get_list_snapshot (s : MeloPlaylistSimple) (tf : MeloTagsFields)
    (name full_name path : Option String) (tags : Option MeloTags)
    (is_current : Bool) (s' : MeloPlaylistSimple)
    (h : melo_playlist_simple_add s name full_name path tags is_current =
      some (true, s')) :
    (melo_playlist_simple_get_list s tf).items.length = s.playlist.length ∧
    ∃ it, (melo_playlist_simple_get_list s' tf).items =
      it :: (melo_playlist_simple_get_list s tf).items := by
  rcases add_inv h with ⟨hr, _⟩ | ⟨_, base, fn, hres, hloop, rfl⟩
  · exact absurd hr (by simp)
  · refine ⟨by simp [melo_playlist_simple_get_list], ?_⟩
    exact ⟨addItem s full_name path tags fn,
      by simp [melo_playlist_simple_get_list, addApply]⟩

/-- Witness for C8: the empty playlist yields an empty snapshot, and after
the add of Track the new state has the Track item consed onto the old
snapshot contents. -/
theorem get_list_snapshot_witness :
    (melo_playlist_simple_get_list (melo_playlist_simple_init false false)
        0).items.length =
      (melo_playlist_simple_init false false).playlist.length ∧
    ∃ it, (melo_playlist_simple_get_list sT1 0).items =
      it :: (melo_playlist_simple_get_list
        (melo_playlist_simple_init false false) 0).items :=
  get_list_snapshot (melo_playlist_simple_init false false) 0
    (some "Track") none none none false sT1 add_track_1

/-! ## C9: direction of get_prev / get_next over the linked sequence -/

/-- C9: with a non-NULL current at position i of the sequence, get_prev
resolves the node one step toward the tail (position i + 1, the node
linked after current), get_next resolves the node one step toward the head
(position i - 1, the node linked before current), and a successful add
prepends its node to the sequence — so the node after current is the
older item and the node before current the more recently added one. -/
theorem advance_follows_links (s : MeloPlaylistSimple) (c : PlaylistNode)
    (i : Nat) (set : Bool) (hc : s.current = some c)
    (hi : currentIdx s c = some i) :
    (∀ nxt, s.playlist[i + 1]? = some nxt →
      melo_playlist_simple_get_prev s set =
        { path := nxt.item.path, name := some nxt.item.name,
          tags := nxt.item.tags,
          state := if set then { s with current := some nxt } else s }) ∧
    (∀ prv, 0 < i → s.playlist[i - 1]? = some prv →
      melo_playlist_simple_get_next s set =
        { path := prv.item.path, name := some prv.item.name,
          tags := prv.item.tags,
          state := { s with current := some prv } }) ∧
    (∀ (name full_name path : Option String) (tags : Option MeloTags)
       (is_current : Bool) (s' : MeloPlaylistSimple),
      melo_playlist_simple_add s name full_name path tags is_current =
          some (true, s') →
      ∃ node, s'.playlist = node :: s.playlist) := by
  refine ⟨?_, ?_, ?_⟩
  · intro nxt hn
    simp [melo_playlist_simple_get_prev, hc, hi, hn]
  · intro prv hpos hp
    have hne : ¬ i = 0 := Nat.pos_iff_ne_zero.mp hpos
    simp [melo_playlist_simple_get_next, hc, hi, hp, hne]
  · intro name full_name path tags is_current s' h
    rcases add_inv h with ⟨hr, _⟩ | ⟨_, base, fn, hres, hloop, rfl⟩
    · exact absurd hr (by simp)
    · exact ⟨{ id := s.next_id, item := addItem s full_name path tags fn },
        by simp [addApply]⟩

/-- A successful add of the fresh name C on the sample playlist. -/
theorem sampleAB_add_C :
    melo_playlist_simple_add sampleAB (some "C") none none none false =
      some (true, addApply sampleAB none none none false "C") := by
  have hloop : addLoop sampleAB.names "C" 1 G_MAXINT = some "C" := by
    have h := @addLoop_step_free sampleAB.names "C" 1 G_MAXINT
      (by decide) (by decide)
    rw [show addCandidate "C" 1 = "C" from by decide] at h
    exact h
  show some (addWithBase sampleAB "C" none none none false) = _
  simp only [addWithBase, hloop]

/-- Witness for C9 at the sample playlist: with current = B (head),
get_prev resolves A (added before B); with current = A, get_next resolves
B (added after A); and adding C prepends its node. -/
theorem advance_follows_links_witness :
    melo_playlist_simple_get_prev sampleABcurB true =
      { path := some "path_a", name := some "A", tags := none,
        state := { sampleABcurB with current := some nodeA } } ∧
    melo_playlist_simple_get_next sampleAB true =
      { path := some "path_b", name := some "B", tags := none,
        state := { sampleAB with current := some nodeB } } ∧
    ∃ node, (addApply sampleAB none none none false "C").playlist =
      node :: sampleAB.playlist := by
  refine ⟨?_, ?_, ?_⟩
  · have h := (advance_follows_links sampleABcurB nodeB 0 true (by decide)
      (by decide)).1 nodeA (by decide)
    simpa using h
  · exact (advance_follows_links sampleAB nodeA 1 true (by decide)
      (by decide)).2.1 nodeB (by decide) (by decide)
  · exact (advance_follows_links sampleAB nodeA 1 true (by decide)
      (by decide)).2.2 (some "C") none none none false _ sampleAB_add_C

/-! ## C7: the playlist invariant is preserved by every operation -/

/-- Moving current to a node of the sequence preserves the invariant. -/
theorem Inv.withCurrent {s : MeloPlaylistSimple} (hInv : Inv s)
    {n : PlaylistNode} (hn : n ∈ s.playlist) :
    Inv { s with current := some n } := by
  refine ⟨hInv.names_nodup, hInv.ids_nodup, hInv.ids_fresh, hInv.table_sound,
    hInv.table_complete, ?_⟩
  intro c hc
  have h : some n = some c := hc
  injection h with h
  exact h ▸ hn

/-- The state mutation of a successful add preserves the invariant, given
that the final name is absent from the table. -/
theorem inv_addApply {s : MeloPlaylistSimple} (hInv : Inv s)
    (full_name path : Option String) (tags : Option MeloTags)
    (is_current : Bool) {fn : String}
    (hfn : ht_lookup s.names fn = none) :
    Inv (addApply s full_name path tags is_current fn) := by
  have hfresh : ∀ n ∈ s.playlist, n.item.name ≠ fn := by
    intro n hn he
    have hc := hInv.table_complete n hn
    rw [he, hfn] at hc
    simp at hc
  constructor
  · show (fn :: s.playlist.map (fun n => n.item.name)).Nodup
    rw [List.nodup_cons]
    refine ⟨?_, hInv.names_nodup⟩
    intro hmem
    rcases List.mem_map.mp hmem with ⟨n, hn, he⟩
    exact hfresh n hn he
  · show (s.next_id :: s.playlist.map PlaylistNode.id).Nodup
    rw [List.nodup_cons]
    refine ⟨?_, hInv.ids_nodup⟩
    intro hmem
    rcases List.mem_map.mp hmem with ⟨n, hn, he⟩
    exact absurd (hInv.ids_fresh n hn) (by rw [he]; exact Nat.lt_irrefl _)
  · intro n hn
    rcases List.mem_cons.mp hn with rfl | hn'
    · exact Nat.lt_succ_self _
    · exact Nat.lt_succ_of_lt (hInv.ids_fresh n hn')
  · intro p hp
    simp only [addApply, ht_insert] at hp
    rcases List.mem_cons.mp hp with rfl | hp'
    · exact ⟨List.mem_cons_self _ _, rfl⟩
    · have hpn := hInv.table_sound p (List.mem_of_mem_filter hp')
      exact ⟨List.mem_cons_of_mem _ hpn.1, hpn.2⟩
  · intro n hn
    rcases List.mem_cons.mp hn with rfl | hn'
    · show (ht_lookup (ht_insert s.names fn
        { id := s.next_id, item := addItem s full_name path tags fn })
          fn).isSome = true
      rw [ht_lookup_insert_self]
      rfl
    · have he : n.item.name ≠ fn := hfresh n hn'
      show (ht_lookup (ht_insert s.names fn
        { id := s.next_id, item := addItem s full_name path tags fn })
          n.item.name).isSome = true
      rw [ht_lookup_insert_ne he]
      exact hInv.table_complete n hn'
  · intro c hc
    cases hcb : is_current with
    | true =>
      simp only [addApply, hcb, if_true] at hc
      injection hc with h
      exact h ▸ List.mem_cons_self _ _
    | false =>
      simp only [addApply, hcb, if_false] at hc
      exact List.mem_cons_of_mem _ (hInv.current_in c hc)

/-- The state mutation of a successful remove preserves the invariant,
for any new current that is a surviving node of the sequence. -/
theorem inv_remove_state {s : MeloPlaylistSimple} (hInv : Inv s)
    {name : String} {node : PlaylistNode}
    (h : ht_lookup s.names name = some node)
    (cur' : Option PlaylistNode)
    (hcur : ∀ c, cur' = some c → c ∈ s.playlist ∧ c.id ≠ node.id) :
    Inv { s with
      current := cur'
      playlist := eraseNode s.playlist node.id
      names := ht_remove s.names name } := by
  have hmem : (name, node) ∈ s.names := ht_lookup_eq_some h
  have hnode : node ∈ s.playlist := (hInv.table_sound _ hmem).1
  have hname : node.item.name = name := (hInv.table_sound _ hmem).2
  constructor
  · exact hInv.names_nodup.sublist
      ((eraseNode_sublist _ _).map (fun n => n.item.name))
  · exact hInv.ids_nodup.sublist
      ((eraseNode_sublist _ _).map PlaylistNode.id)
  · intro n hn
    exact hInv.ids_fresh n ((eraseNode_sublist _ _).subset hn)
  · intro p hp
    have hp' : p ∈ s.names := List.mem_of_mem_filter hp
    have hs := hInv.table_sound p hp'
    refine ⟨?_, hs.2⟩
    apply mem_eraseNode_of_ne hs.1
    intro hid
    have hpn : p.2 = node :=
      List.inj_on_of_nodup_map hInv.ids_nodup hs.1 hnode hid
    have hkey : p.1 = name := by rw [← hs.2, hpn, hname]
    have hfil := List.of_mem_filter hp
    simp [hkey] at hfil
  · intro n hn
    have hn' : n ∈ s.playlist := (eraseNode_sublist _ _).subset hn
    have hne : n.item.name ≠ name := by
      intro he
      have heq : n = node :=
        List.inj_on_of_nodup_map hInv.names_nodup hn' hnode
          (by rw [he, hname])
      exact id_ne_of_mem_eraseNode hInv.ids_nodup hn (by rw [heq])
    show (ht_lookup (ht_remove s.names name) n.item.name).isSome = true
    rw [ht_lookup_remove_ne hne]
    exact hInv.table_complete n hn'
  · intro c hc
    rcases hcur c hc with ⟨hcm, hcid⟩
    exact mem_eraseNode_of_ne hcm hcid

/-- C7: every playlist operation — add, play, remove and both advance
directions — preserves the playlist invariant: unique item names, a table
whose entries all point at sequence nodes under their names and that
resolves every sequence node, and a current pointer that, when non-NULL,
holds a node of the sequence. -/
theorem playlist_ops_preserve_inv (s : MeloPlaylistSimple) (hInv : Inv s) :
    (∀ (name full_name path : Option String) (tags : Option MeloTags)
       (is_current r : Bool) (s' : MeloPlaylistSimple),
      melo_playlist_simple_add s name full_name path tags is_current =
        some (r, s') → Inv s') ∧
    (∀ name, Inv (melo_playlist_simple_play s name).2.1) ∧
    (∀ name, Inv (melo_playlist_simple_remove s name).2.1) ∧
    (∀ set, Inv (melo_playlist_simple_get_prev s set).state) ∧
    (∀ set, Inv (melo_playlist_simple_get_next s set).state) := by
  refine ⟨?_, ?_, ?_, ?_, ?_⟩
  · intro name full_name path tags is_current r s' h
    rcases add_inv h with ⟨_, rfl, _⟩ | ⟨_, base, fn, hres, hloop, rfl⟩
    · exact hInv
    · exact inv_addApply hInv full_name path tags is_current
        (addLoop_fresh hloop)
  · intro name
    unfold melo_playlist_simple_play
    cases h : ht_lookup s.names name with
    | none => exact hInv
    | some node =>
      exact hInv.withCurrent (hInv.table_sound _ (ht_lookup_eq_some h)).1
  · intro name
    unfold melo_playlist_simple_remove
    cases h : ht_lookup s.names name with
    | none => exact hInv
    | some node =>
      refine inv_remove_state hInv h _ ?_
      intro c hc
      cases hcs : s.current with
      | none => simp [hcs] at hc
      | some c0 =>
        by_cases hid : (c0.id == node.id) = true
        · simp [hcs, hid] at hc
        · simp only [hcs, hid, if_false] at hc
          injection hc with hc
          subst hc
          exact ⟨hInv.current_in c0 hcs, by simpa using hid⟩
  · intro set
    unfold melo_playlist_simple_get_prev
    split
    · exact hInv
    · split
      · exact hInv
      · split
        · exact hInv
        · rename_i c hc i hi nxt hn
          cases set with
          | false => exact hInv
          | true => exact hInv.withCurrent (List.getElem?_mem hn)
  · intro set
    unfold melo_playlist_simple_get_next
    split
    · exact hInv
    · split
      · exact hInv
      · split
        · exact hInv
        · split
          · exact hInv
          · rename_i c hc i hi hiz prv hp
            exact hInv.withCurrent (List.getElem?_mem hp)

/-- The empty playlist produced by init satisfies the invariant. -/
theorem init_inv : Inv (melo_playlist_simple_init false false) := by
  refine ⟨by decide, by decide, by decide, by decide, by decide, ?_⟩
  intro c hc
  simp [melo_playlist_simple_init] at hc

/-- Witness for C7: the invariant holds after play, remove and get_next on
the sample playlist, and after the add of Track on the empty playlist. -/
theorem playlist_ops_preserve_inv_witness :
    Inv (melo_playlist_simple_play sampleAB "B").2.1 ∧
    Inv (melo_playlist_simple_remove sampleAB "A").2.1 ∧
    Inv (melo_playlist_simple_get_next sampleAB true).state ∧
    Inv sT1 :=
  ⟨(playlist_ops_preserve_inv sampleAB sampleAB_inv).2.1 "B",
   (playlist_ops_preserve_inv sampleAB sampleAB_inv).2.2.1 "A",
   (playlist_ops_preserve_inv sampleAB sampleAB_inv).2.2.2.2 true,
   (playlist_ops_preserve_inv (melo_playlist_simple_init false false)
       init_inv).1
     (some "Track") none none none false true sT1 add_track_1⟩

end Melo
